import Mathlib

/-!
Verification of the FCPXML ↔ timeline adapter (package `fcpxml`).

The development shallowly embeds the adapter's Go source:

* the rational-time codec (`parseRationalTime`, `formatRationalTime` in
  `decoder.go` / the encoder file);
* the typed document model and the custom polymorphic decode rule for the
  spine (`Spine.UnmarshalXML` in the types file), modelled at the level of
  XML tokens;
* the decoder (`convertToTimeline`, `convertSequenceToTracks` and the
  per-variant conversion functions);
* the encoder (`convertTracksToSequence`, `convertItem` and friends).

Go strings are modelled as `List Char` where character-level reasoning is
needed, and as `String` for inert record fields.  Go `float64` values are
modelled as exact rationals: every numeric value the claims exercise is an
integer or a small fraction, far below any float64 precision boundary.
External collaborators (the Go standard library's `strconv.ParseFloat`, the
XML tokenizer, and the `gotio` timeline model) are embedded through the
narrow contract the adapter uses, mirroring their documented behaviour.
-/

namespace Fcpx

/-! ## Rational time values

`opentime.RationalTime` carries two `float64` fields, value and rate; the
Go zero value `opentime.RationalTime{}` is (0, 0). -/

/-- Model of `opentime.RationalTime` (value, rate). -/
structure RationalTime where
  value : ℚ
  rate : ℚ
deriving DecidableEq, Repr

/-- The three distinct parse failures of `parseRationalTime`
("invalid rational time format" / "... numerator" / "... denominator"). -/
inductive TimeErr where
  | invalidFormat
  | invalidNumerator
  | invalidDenominator
deriving DecidableEq, Repr

-- Equality of `Except` results is decidable componentwise (the standard
-- library does not derive this instance itself).
deriving instance DecidableEq for Except

/-! ## Go string helpers used by `parseRationalTime` -/

/-- `strings.Split(s, "/")`: split at every slash; the empty string yields
one empty field. -/
def splitOnSlash : List Char → List (List Char)
  | [] => [[]]
  | c :: cs =>
    if c = '/' then [] :: splitOnSlash cs
    else
      match splitOnSlash cs with
      | [] => [[c]]
      | p :: ps => (c :: p) :: ps

/-- `strings.TrimSuffix(s, "s")`: drop one trailing `'s'` if present. -/
def trimTrailingS (s : List Char) : List Char :=
  if s.getLast? = some 's' then s.dropLast else s

/-! ## Model of `strconv.ParseFloat`

`strconv.ParseFloat` is Go standard library, external to the adapter.  The
decoder is therefore embedded relative to an arbitrary real-number parser
`pf : List Char → Option ℚ`; the concrete model `goParseFloat` below covers
the finite decimal literals (optional sign, digits, optional fractional
part, optional exponent) that the adapter's formats produce.  The special
forms (`inf`/`nan`, hexadecimal floats, digit separators) never arise here
and are outside the model.  `strconv.ParseFloat` rounds the literal to the
nearest float64 where this model is exact; the two differ only on literals
whose value is not a float64, and every literal the adapter itself formats
is the decimal rendering of an int64, whose float64 image parses back to
itself. -/

/-- Consume leading decimal digits, accumulating their value onto `acc`. -/
def parseDigits : ℕ → List Char → ℕ × List Char
  | acc, [] => (acc, [])
  | acc, c :: cs =>
    if c.isDigit then parseDigits (10 * acc + (c.toNat - 48)) cs
    else (acc, c :: cs)

/-- The number of leading decimal digits. -/
def countDigits : List Char → ℕ
  | [] => 0
  | c :: cs => if c.isDigit then countDigits cs + 1 else 0

/-- Decimal exponent part: empty, or `e`/`E`, an optional sign and digits
consuming the rest of the input. -/
def applyExp (m : ℚ) (s : List Char) : Option ℚ :=
  match s with
  | [] => some m
  | e :: es =>
    if e = 'e' ∨ e = 'E' then
      let (pos, ds) :=
        match es with
        | '+' :: r => (true, r)
        | '-' :: r => (false, r)
        | r => (true, r)
      if countDigits ds = 0 then none
      else
        let (n, rest) := parseDigits 0 ds
        if rest = [] then some (if pos then m * 10 ^ n else m / 10 ^ n)
        else none
    else none

/-- Decimal mantissa: digits, optionally a dot and further digits, with at
least one digit overall. -/
def parseMantissa (s : List Char) : Option (ℚ × List Char) :=
  match parseDigits 0 s, countDigits s with
  | (ip, '.' :: ds), n1 =>
    let fp := (parseDigits 0 ds).1
    let r2 := (parseDigits 0 ds).2
    let n2 := countDigits ds
    if n1 + n2 = 0 then none
    else some ((ip : ℚ) + (fp : ℚ) / 10 ^ n2, r2)
  | (ip, r1), n1 =>
    if n1 = 0 then none else some ((ip : ℚ), r1)

/-- Model of `strconv.ParseFloat(s, 64)` on finite decimal literals, with
exact rational arithmetic. -/
def goParseFloat (s : List Char) : Option ℚ :=
  match s with
  | [] => none
  | c :: cs =>
    let neg := c = '-'
    let body := if c = '-' ∨ c = '+' then cs else c :: cs
    match parseMantissa body with
    | none => none
    | some (m, rest) =>
      match applyExp m rest with
      | none => none
      | some v => some (if neg then -v else v)

/-! ## `parseRationalTime` (decoder.go) -/

/-- `Decoder.parseRationalTime`, parameterised by the real-number parser
`pf` standing for `strconv.ParseFloat`:

* empty input is the zero time value, no error;
* otherwise a trailing `'s'` is stripped and the input split on `'/'`;
* exactly two fields: both are parsed as reals, giving (value, rate);
* otherwise the whole trimmed input is parsed as a bare real at the
  default rate 24. -/
def parseRationalTime (pf : List Char → Option ℚ) (s : List Char) :
    Except TimeErr RationalTime :=
  if s = [] then .ok ⟨0, 0⟩
  else
    match splitOnSlash (trimTrailingS s) with
    | [a, b] =>
      match pf a with
      | none => .error .invalidNumerator
      | some v =>
        match pf b with
        | none => .error .invalidDenominator
        | some r => .ok ⟨v, r⟩
    | _ =>
      match pf (trimTrailingS s) with
      | none => .error .invalidFormat
      | some v => .ok ⟨v, 24⟩

/-! ## `formatRationalTime` (encoder) -/

/-- A decimal digit character. -/
def digitChar (n : ℕ) : Char :=
  if n = 0 then '0' else if n = 1 then '1' else if n = 2 then '2'
  else if n = 3 then '3' else if n = 4 then '4' else if n = 5 then '5'
  else if n = 6 then '6' else if n = 7 then '7' else if n = 8 then '8'
  else '9'

/-- Decimal digits of a natural number, most significant first, with a
structural fuel argument (`natChars` always passes enough fuel), keeping
the definition kernel-computable. -/
def natCharsAux : ℕ → ℕ → List Char
  | 0, _ => []
  | fuel + 1, n =>
    if n < 10 then [digitChar n]
    else natCharsAux fuel (n / 10) ++ [digitChar (n % 10)]

/-- Decimal digits of a natural number, most significant first. -/
def natChars (n : ℕ) : List Char := natCharsAux (n + 1) n

/-- Decimal rendering of an integer (`fmt.Sprintf` with `%d`). -/
def intChars (n : ℤ) : List Char :=
  if n < 0 then '-' :: natChars n.natAbs else natChars n.natAbs

/-- The smallest `int64` value, `-2^63`. -/
def int64Min : ℤ := -9223372036854775808

/-- The largest `int64` value, `2^63 - 1`. -/
def int64Max : ℤ := 9223372036854775807

/-- Go's `int64(x)` conversion on a `float64`: truncation toward zero for
values the result type can represent.  For a value outside the int64 range
the Go specification makes the conversion succeed with an
implementation-dependent result; this models the amd64 behaviour
(`CVTTSD2SI` returns the integer-indefinite value), which yields the
minimal int64. -/
def qTrunc (q : ℚ) : ℤ :=
  let t := if 0 ≤ q then ⌊q⌋ else ⌈q⌉
  if t < int64Min ∨ int64Max < t then int64Min else t

/-- `Encoder.formatRationalTime`: `"0/1s"` for a non-positive rate,
otherwise `"<int64(value)>/<int64(rate)>s"`. -/
def formatRationalTime (rt : RationalTime) : List Char :=
  if rt.rate ≤ 0 then ['0', '/', '1', 's']
  else intChars (qTrunc rt.value) ++ '/' :: (intChars (qTrunc rt.rate) ++ ['s'])

/-- `formatRationalTime` packaged as a `String`, as the encoder stores it
into document attributes. -/
def formatRTS (rt : RationalTime) : String :=
  ⟨formatRationalTime rt⟩

/-- The decoder's concrete time parser: `parseRationalTime` over
`strconv.ParseFloat`, on a `String` attribute. -/
def goParse (s : String) : Except TimeErr RationalTime :=
  parseRationalTime goParseFloat s.toList

/-! ## Document model (types file)

The structs mirror the vendor-schema types; XML plumbing (`XMLName`,
attribute tags) is carried by the external XML layer and has no logical
content.  Fields default to the Go zero values. -/

/-- `Marker`. -/
structure Marker where
  start : String := ""
  duration : String := ""
  value : String := ""
  note : String := ""
  completed : Bool := false
deriving DecidableEq, Repr

/-- `Video`. -/
structure Video where
  name : String := ""
  ref : String := ""
  offset : String := ""
  start : String := ""
  duration : String := ""
  markers : List Marker := []
deriving DecidableEq, Repr

/-- `Channel` (audio-channel). -/
structure Channel where
  role : String := ""
  srcCh : String := ""
  start : String := ""
  duration : String := ""
deriving DecidableEq, Repr

/-- `Audio`. -/
structure Audio where
  name : String := ""
  ref : String := ""
  offset : String := ""
  start : String := ""
  duration : String := ""
  role : String := ""
  channels : List Channel := []
deriving DecidableEq, Repr

/-- `Clip` (asset-clip). -/
structure Clip where
  name : String := ""
  ref : String := ""
  offset : String := ""
  start : String := ""
  duration : String := ""
  tcFormat : String := ""
  audioStart : String := ""
  audioDuration : String := ""
  audioRole : String := ""
  markers : List Marker := []
  video : Option Video := none
  audio : Option Audio := none
deriving DecidableEq, Repr

/-- `Gap`. -/
structure Gap where
  name : String := ""
  offset : String := ""
  start : String := ""
  duration : String := ""
deriving DecidableEq, Repr

/-- `Title`. -/
structure Title where
  name : String := ""
  ref : String := ""
  offset : String := ""
  start : String := ""
  duration : String := ""
deriving DecidableEq, Repr

/-- `Param` within a filter. -/
structure Param where
  name : String := ""
  key : String := ""
  value : String := ""
deriving DecidableEq, Repr

/-- `FilterVideo` within a transition. -/
structure FilterVideo where
  ref : String := ""
  name : String := ""
  params : List Param := []
deriving DecidableEq, Repr

/-- `FilterAudio` within a transition. -/
structure FilterAudio where
  ref : String := ""
  name : String := ""
  params : List Param := []
deriving DecidableEq, Repr

/-- `Transition`. -/
structure Transition where
  name : String := ""
  offset : String := ""
  duration : String := ""
  filterVideo : Option FilterVideo := none
  filterAudio : Option FilterAudio := none
deriving DecidableEq, Repr

/-- `RefClip` (reference to a compound clip). -/
structure RefClip where
  name : String := ""
  ref : String := ""
  offset : String := ""
  start : String := ""
  duration : String := ""
  srcEnable : String := ""
  useAudioSubroles : Bool := false
  markers : List Marker := []
deriving DecidableEq, Repr

/-- The closed variant set filling `Spine.Items`: the typed values the
custom unmarshal rule constructs (and the encoder emits). -/
inductive SpineItem where
  | clip (c : Clip)
  | video (v : Video)
  | audio (a : Audio)
  | gap (g : Gap)
  | title (t : Title)
  | transition (t : Transition)
  | refClip (r : RefClip)
deriving DecidableEq, Repr

/-- `Spine`. -/
structure Spine where
  items : List SpineItem := []
deriving DecidableEq, Repr

/-- `Sequence`. -/
structure Sequence where
  format : String := ""
  duration : String := ""
  tcStart : String := ""
  tcFormat : String := ""
  audioLayout : String := ""
  audioRate : String := ""
  spine : Option Spine := none
deriving DecidableEq, Repr

/-- `Project`. -/
structure Project where
  name : String := ""
  uid : String := ""
  modDate : String := ""
  sequence : Option Sequence := none
deriving DecidableEq, Repr

/-- `Event`. -/
structure Event where
  name : String := ""
  uid : String := ""
  projects : List Project := []
  clips : List Clip := []
  refClips : List RefClip := []
deriving DecidableEq, Repr

/-- `Library`. -/
structure Library where
  location : String := ""
  events : List Event := []
  projects : List Project := []
deriving DecidableEq, Repr

/-- `FCPXML` root document.  `Resources` is decode-time passthrough that no
converter path reads, so it is not part of the model. -/
structure FCPXML where
  version : String := ""
  library : Option Library := none
  event : Option Event := none
  project : Option Project := none
deriving DecidableEq, Repr

/-! ## External timeline model (`gotio`)

Embedded through the construction/inspection contract the adapter uses:
timeline name and root stack, tracks with a kind and ordered children,
clips/gaps/stacks with optional source range, markers, and (on stacks)
string-keyed metadata. -/

/-- `opentime.TimeRange`. -/
structure TimeRange where
  start : RationalTime
  duration : RationalTime
deriving DecidableEq, Repr

/-- The marker colors the adapter mentions; the decoder only ever emits
green. -/
inductive TLMarkerColor where
  | green
  | red
  | purple
deriving DecidableEq, Repr

/-- A timeline-model marker. -/
structure TLMarker where
  name : String
  markedRange : TimeRange
  color : TLMarkerColor
  comment : String
deriving DecidableEq, Repr

/-- A timeline-model clip (the adapter always attaches an empty external
media reference, which carries no information and is not modelled). -/
structure TLClip where
  name : String
  sourceRange : Option TimeRange
  markers : List TLMarker
deriving DecidableEq, Repr

/-- A timeline-model gap. -/
structure TLGap where
  name : String
  sourceRange : Option TimeRange
deriving DecidableEq, Repr

/-- A timeline-model stack, with free-form string-keyed metadata. -/
structure TLStack where
  name : String
  sourceRange : Option TimeRange
  markers : List TLMarker
  metadata : List (String × String)
deriving DecidableEq, Repr

/-- A composable child of a track. -/
inductive TLItem where
  | clip (c : TLClip)
  | gap (g : TLGap)
  | stack (s : TLStack)
deriving DecidableEq, Repr

/-- `gotio.TrackKind`. -/
inductive TrackKind where
  | video
  | audio
deriving DecidableEq, Repr

/-- A timeline-model track. -/
structure Track where
  name : String
  kind : TrackKind
  children : List TLItem
deriving DecidableEq, Repr

/-- A timeline: name and the children of the root stack. -/
structure Timeline where
  name : String
  tracks : List Track
deriving DecidableEq, Repr

/-! ## Decoder (`decoder.go`) -/

/-- Decode failures: no resolvable project, or a malformed time attribute
(the string names the offending field, as the Go error message does). -/
inductive DecodeError where
  | noProjectFound
  | badTime (field : String) (e : TimeErr)
deriving DecidableEq, Repr

/-- `Decoder.convertMarker`. -/
def convertMarker (m : Marker) : Except DecodeError TLMarker := do
  let start ← (goParse m.start).mapError (DecodeError.badTime ("marker start"))
  let duration ←
    if m.duration ≠ "" then
      (goParse m.duration).mapError (DecodeError.badTime ("marker duration"))
    else pure ⟨0, 0⟩
  let markedRange : TimeRange := ⟨start, duration⟩
  return ⟨m.value, markedRange, .green, m.note⟩

/-- The marker-collection loop shared by the clip/video/ref-clip
conversions: convert each marker in order, aborting on the first error. -/
def convertMarkers : List Marker → Except DecodeError (List TLMarker)
  | [] => .ok []
  | m :: ms => do
    let mk ← convertMarker m
    let rest ← convertMarkers ms
    return mk :: rest

/-- `Decoder.convertClip`: may append a clip to the video children, the
audio children, or both. -/
def convertClip (c : Clip) (vt aud : List TLItem) :
    Except DecodeError (List TLItem × List TLItem) := do
  let duration ← (goParse c.duration).mapError (DecodeError.badTime ("clip duration"))
  let start ←
    if c.start ≠ "" then
      (goParse c.start).mapError (DecodeError.badTime ("clip start"))
    else pure ⟨0, 0⟩
  let sourceRange : TimeRange := ⟨start, duration⟩
  let markers ← convertMarkers c.markers
  let vt :=
    if c.video.isSome ∨ c.ref ≠ "" then
      vt ++ [.clip ⟨c.name, some sourceRange, markers⟩]
    else vt
  let aud :=
    if c.audio.isSome ∨ c.audioDuration ≠ "" then
      aud ++ [.clip ⟨c.name, some sourceRange, markers⟩]
    else aud
  return (vt, aud)

/-- `Decoder.convertVideo`: appends one clip to the video children. -/
def convertVideo (v : Video) (vt : List TLItem) :
    Except DecodeError (List TLItem) := do
  let duration ← (goParse v.duration).mapError (DecodeError.badTime ("video duration"))
  let start ←
    if v.start ≠ "" then
      (goParse v.start).mapError (DecodeError.badTime ("video start"))
    else pure ⟨0, 0⟩
  let sourceRange : TimeRange := ⟨start, duration⟩
  let markers ← convertMarkers v.markers
  return vt ++ [.clip ⟨v.name, some sourceRange, markers⟩]

/-- `Decoder.convertAudio`: appends one clip (with no markers) to the audio
children. -/
def convertAudio (a : Audio) (aud : List TLItem) :
    Except DecodeError (List TLItem) := do
  let duration ← (goParse a.duration).mapError (DecodeError.badTime ("audio duration"))
  let start ←
    if a.start ≠ "" then
      (goParse a.start).mapError (DecodeError.badTime ("audio start"))
    else pure ⟨0, 0⟩
  let sourceRange : TimeRange := ⟨start, duration⟩
  return aud ++ [.clip ⟨a.name, some sourceRange, []⟩]

/-- `Decoder.convertGap`: a gap of the parsed duration, starting at the
zero time value, appended to both children lists. -/
def convertGap (g : Gap) (vt aud : List TLItem) :
    Except DecodeError (List TLItem × List TLItem) := do
  let duration ← (goParse g.duration).mapError (DecodeError.badTime ("gap duration"))
  let sourceRange : TimeRange := ⟨⟨0, 0⟩, duration⟩
  return (vt ++ [.gap ⟨g.name, some sourceRange⟩], aud ++ [.gap ⟨g.name, some sourceRange⟩])

/-- `Decoder.convertRefClip`: a stack tagged with the reference id (and the
source-enable discriminator when non-empty), routed by `srcEnable`. -/
def convertRefClip (r : RefClip) (vt aud : List TLItem) :
    Except DecodeError (List TLItem × List TLItem) := do
  let duration ← (goParse r.duration).mapError (DecodeError.badTime ("ref-clip duration"))
  let start ←
    if r.start ≠ "" then
      (goParse r.start).mapError (DecodeError.badTime ("ref-clip start"))
    else pure ⟨0, 0⟩
  let sourceRange : TimeRange := ⟨start, duration⟩
  let markers ← convertMarkers r.markers
  let metadata :=
    ("fcpx_ref", r.ref) ::
      (if r.srcEnable ≠ "" then [("fcpx_src_enable", r.srcEnable)] else [])
  let stk : TLItem := .stack ⟨r.name, some sourceRange, markers, metadata⟩
  if r.srcEnable = "audio" then
    return (vt, aud ++ [stk])
  else
    return (vt ++ [stk], aud)

/-- One step of the spine loop in `convertSequenceToTracks`: transitions
are skipped by an explicit `continue`; titles fall through the Go type
switch, which has no case for them, with the same effect. -/
def convertStep (item : SpineItem) (vt aud : List TLItem) :
    Except DecodeError (List TLItem × List TLItem) :=
  match item with
  | .clip c => convertClip c vt aud
  | .video v => (convertVideo v vt).map (fun vt' => (vt', aud))
  | .audio a => (convertAudio a aud).map (fun aud' => (vt, aud'))
  | .gap g => convertGap g vt aud
  | .transition _ => .ok (vt, aud)
  | .title _ => .ok (vt, aud)
  | .refClip r => convertRefClip r vt aud

/-- The spine loop of `convertSequenceToTracks`, threading the children of
the materialized video and audio tracks. -/
def processItems : List SpineItem → List TLItem → List TLItem →
    Except DecodeError (List TLItem × List TLItem)
  | [], vt, aud => .ok (vt, aud)
  | i :: is, vt, aud => do
    let (vt', aud') ← convertStep i vt aud
    processItems is vt' aud'

/-- `Decoder.convertSequenceToTracks`: nothing to do without a spine;
otherwise materialize the two tracks, run the spine loop, and append each
track to the timeline's root stack only when it is non-empty (video first,
then audio). -/
def convertSequenceToTracks (seq : Sequence) (tl : Timeline) :
    Except DecodeError Timeline :=
  match seq.spine with
  | none => .ok tl
  | some spine => do
    let (vt, aud) ← processItems spine.items [] []
    let tracks := tl.tracks
    let tracks := if vt ≠ [] then tracks ++ [⟨"Video 1", .video, vt⟩] else tracks
    let tracks := if aud ≠ [] then tracks ++ [⟨"Audio 1", .audio, aud⟩] else tracks
    return { tl with tracks := tracks }

/-- The scan of library events in `convertToTimeline`: the first project of
the first event that has any project. -/
def firstEventProject : List Event → Option Project
  | [] => none
  | e :: es =>
    match e.projects with
    | p :: _ => some p
    | [] => firstEventProject es

/-- The project-resolution chain at the head of `convertToTimeline`: the
document-root project; otherwise, when a `library` element is present, its
first direct project or else the first project of the first event that has
any; otherwise (no library), the first project of the root-level event. -/
def resolveProject (d : FCPXML) : Option Project :=
  match d.project with
  | some p => some p
  | none =>
    match d.library with
    | some lib =>
      match lib.projects with
      | p :: _ => some p
      | [] => firstEventProject lib.events
    | none =>
      match d.event with
      | some ev => ev.projects.head?
      | none => none

/-- `Decoder.convertToTimeline`: resolve the project (failing with
`NoProjectFound`), create the timeline, and convert the sequence when one
is present. -/
def convertToTimeline (d : FCPXML) : Except DecodeError Timeline :=
  match resolveProject d with
  | none => .error .noProjectFound
  | some p =>
    let tl : Timeline := ⟨p.name, []⟩
    match p.sequence with
    | none => .ok tl
    | some seq => convertSequenceToTracks seq tl

/-! ## The custom spine decode rule (`Spine.UnmarshalXML`), at token level

`Spine.UnmarshalXML` streams `xml.Decoder` tokens.  A token is a start
element, an end element, or anything else (character data, comments, ...),
which the loop's switch ignores.  `xml.Decoder.DecodeElement` and
`xml.Decoder.Skip` both consume exactly the sub-tree up to the matching end
element; what `DecodeElement` builds from the consumed body is the XML
layer's concern, so a raw item variant keeps the body tokens. -/

/-- An XML token as seen by the unmarshal loop. -/
inductive Tok where
  | startTag (name : String)
  | endTag
  | other
deriving DecidableEq, Repr

/-- The variant constructed for each recognized start tag, holding the
tokens of the element's sub-tree. -/
inductive RawSpineItem where
  | clip (body : List Tok)
  | video (body : List Tok)
  | audio (body : List Tok)
  | gap (body : List Tok)
  | title (body : List Tok)
  | transition (body : List Tok)
  | refClip (body : List Tok)
deriving DecidableEq, Repr

/-- The tag dispatch of `Spine.UnmarshalXML`: the switch on
`t.Name.Local`, with `asset-clip` and `clip` sharing a case and every
other tag falling to the default (skip). -/
def dispatchTag (name : String) (body : List Tok) : Option RawSpineItem :=
  if name = "asset-clip" ∨ name = "clip" then some (.clip body)
  else if name = "video" then some (.video body)
  else if name = "audio" then some (.audio body)
  else if name = "gap" then some (.gap body)
  else if name = "title" then some (.title body)
  else if name = "transition" then some (.transition body)
  else if name = "ref-clip" then some (.refClip body)
  else none

/-- Consume one element body: the tokens up to the end element matching
depth `d`, returning (body, remaining stream).  `none` when the stream
ends first.  This is what both `DecodeElement` and `Skip` consume. -/
def splitElem : List Tok → ℕ → Option (List Tok × List Tok)
  | [], _ => none
  | .startTag n :: ts, d =>
    (splitElem ts (d + 1)).map (fun p => (.startTag n :: p.1, p.2))
  | .endTag :: ts, 0 => some ([], ts)
  | .endTag :: ts, d + 1 =>
    (splitElem ts d).map (fun p => (.endTag :: p.1, p.2))
  | .other :: ts, d => (splitElem ts d).map (fun p => (.other :: p.1, p.2))

/-- The token loop of `Spine.UnmarshalXML`: on a start element, consume the
sub-tree; a recognized tag appends its variant, an unknown tag appends
nothing; an end element at this level is the spine's own end and stops the
loop; any other token is ignored; a stream ending before the spine's end
element is the tokenizer's EOF error.  The structural fuel argument (one
unit per consumed token, always sufficient for the fuel
`unmarshalSpineItems` passes) keeps the loop kernel-computable. -/
def unmarshalAux : ℕ → List Tok → Except Unit (List RawSpineItem)
  | 0, _ => .error ()
  | fuel + 1, toks =>
    match toks with
    | [] => .error ()
    | .endTag :: _ => .ok []
    | .other :: ts => unmarshalAux fuel ts
    | .startTag n :: ts =>
      match splitElem ts 0 with
      | none => .error ()
      | some (body, rest) =>
        match dispatchTag n body with
        | some item => (unmarshalAux fuel rest).map (fun items => item :: items)
        | none => unmarshalAux fuel rest

/-- The unmarshal loop of `Spine.UnmarshalXML` on a token stream. -/
def unmarshalSpineItems (toks : List Tok) : Except Unit (List RawSpineItem) :=
  unmarshalAux toks.length toks

/-- A well-formed element tree: a named element with child nodes, or any
non-element content. -/
inductive XNode where
  | elem (name : String) (children : List XNode)
  | text

mutual

/-- The token stream of one well-formed node. -/
def flattenNode : XNode → List Tok
  | .elem n cs => .startTag n :: (flattenForest cs ++ [.endTag])
  | .text => [.other]

/-- The token stream of a list of well-formed nodes, in order. -/
def flattenForest : List XNode → List Tok
  | [] => []
  | c :: cs => flattenNode c ++ flattenForest cs

end

/-- Spec-side description of the decode rule's guarantee: the recognized
top-level element tags, dispatched in document order; unknown tags and
non-element content contribute nothing. -/
def topLevelItems : List XNode → List RawSpineItem
  | [] => []
  | .text :: cs => topLevelItems cs
  | .elem n body :: cs =>
    match dispatchTag n (flattenForest body) with
    | some item => item :: topLevelItems cs
    | none => topLevelItems cs

/-! ## Encoder (the encoder file) -/

/-- Encode failures: an absent root stack, or an item without a computable
duration (the string names the item kind, as the Go error message does). -/
inductive EncodeError where
  | noTracksInTimeline
  | noDuration (what : String)
deriving DecidableEq, Repr

/-- `gotio` `Item.Duration()` on a clip, per the external contract: the
source-range duration, failing when the range is unset. -/
def clipDuration (c : TLClip) : Except EncodeError RationalTime :=
  match c.sourceRange with
  | some r => .ok r.duration
  | none => .error (.noDuration ("clip"))

/-- `Item.Duration()` on a gap. -/
def gapDuration (g : TLGap) : Except EncodeError RationalTime :=
  match g.sourceRange with
  | some r => .ok r.duration
  | none => .error (.noDuration ("gap"))

/-- `Item.Duration()` on a stack. -/
def stackDuration (s : TLStack) : Except EncodeError RationalTime :=
  match s.sourceRange with
  | some r => .ok r.duration
  | none => .error (.noDuration ("stack"))

/-- `Encoder.convertMarkerToFCPX`. -/
def convertMarkerToFCPX (m : TLMarker) : Marker :=
  { start := formatRTS m.markedRange.start
    duration := formatRTS m.markedRange.duration
    value := m.name
    note := m.comment }

/-- `Encoder.convertClipToFCPX`: a `Video` element when encoding for the
video side, an `Audio` element otherwise. -/
def convertClipToFCPX (c : TLClip) (isVideo : Bool) :
    Except EncodeError SpineItem := do
  let duration ← clipDuration c
  let start :=
    match c.sourceRange with
    | some r => r.start
    | none => (⟨0, 0⟩ : RationalTime)
  let markers := c.markers.map convertMarkerToFCPX
  if isVideo then
    return .video
      { name := c.name, duration := formatRTS duration, start := formatRTS start,
        markers := markers }
  else
    return .audio
      { name := c.name, duration := formatRTS duration, start := formatRTS start }

/-- `Encoder.convertClipToAudio`. -/
def convertClipToAudio (c : TLClip) : Except EncodeError Audio := do
  let duration ← clipDuration c
  let start :=
    match c.sourceRange with
    | some r => r.start
    | none => (⟨0, 0⟩ : RationalTime)
  return { name := c.name, duration := formatRTS duration, start := formatRTS start }

/-- `Encoder.convertGapToFCPX`. -/
def convertGapToFCPX (g : TLGap) : Except EncodeError SpineItem := do
  let duration ← gapDuration g
  return .gap { name := g.name, duration := formatRTS duration }

/-- `Encoder.convertStackToRefClip`: the reference id is read back from
the stack's metadata, falling back to the fixed default `"r1"`. -/
def convertStackToRefClip (s : TLStack) : Except EncodeError SpineItem := do
  let duration ← stackDuration s
  let start :=
    match s.sourceRange with
    | some r => r.start
    | none => (⟨0, 0⟩ : RationalTime)
  let markers := s.markers.map convertMarkerToFCPX
  let refID :=
    match s.metadata.lookup ("fcpx_ref") with
    | some r => r
    | none => "r1"
  return .refClip
    { name := s.name, ref := refID, duration := formatRTS duration,
      start := formatRTS start, markers := markers }

/-- `Encoder.convertItem`: the type switch over a track child.  The Go
default case (`UnsupportedItemKind`) is unreachable here because `TLItem`
is the closed set {clip, gap, stack}. -/
def convertItem (item : TLItem) (isVideo : Bool) : Except EncodeError SpineItem :=
  match item with
  | .clip c => convertClipToFCPX c isVideo
  | .gap g => convertGapToFCPX g
  | .stack s => convertStackToRefClip s

/-- The spine-construction loop of `Encoder.convertTracksToSequence`:
iterate the video items in order; when an audio item exists at the same
index and is a plain clip, and the freshly converted item is a document
`Clip`, fold the audio into that clip's audio sub-field.  (Passing the
tail of the audio list to the recursive call is the positional `i <
len(audioItems)` indexing.) -/
def encodeSpineItems : List TLItem → List TLItem →
    Except EncodeError (List SpineItem)
  | [], _ => .ok []
  | v :: vs, auds => do
    let fcpItem ← convertItem v true
    let fcpItem ←
      match auds with
      | a :: _ =>
        match a with
        | .clip ac =>
          match fcpItem with
          | .clip c => do
            let audio ← convertClipToAudio ac
            pure (SpineItem.clip { c with audio := some audio })
          | otherItem => pure otherItem
        | _ => pure fcpItem
      | [] => pure fcpItem
    let rest ← encodeSpineItems vs auds.tail
    return fcpItem :: rest

/-- `Encoder.convertTracksToSequence`: concatenate the children of every
video-kind track and of every audio-kind track (in track order), run the
spine loop, and wrap the result in a sequence with the fixed format id and
empty duration. -/
def convertTracksToSequence (stack : Option (List Track)) :
    Except EncodeError Sequence :=
  match stack with
  | none => .error .noTracksInTimeline
  | some tracks => do
    let collected :=
      tracks.foldl
        (fun (acc : List TLItem × List TLItem) tr =>
          if tr.kind = .video then (acc.1 ++ tr.children, acc.2)
          else if tr.kind = .audio then (acc.1, acc.2 ++ tr.children)
          else acc)
        ([], [])
    let items ← encodeSpineItems collected.1 collected.2
    return { format := "r1", duration := "", spine := some ⟨items⟩ }

/-- `Encoder.convertFromTimeline`: the minimal `project → sequence` shape
with the fixed schema version. -/
def convertFromTimeline (tl : Timeline) : Except EncodeError FCPXML := do
  let sequence ← convertTracksToSequence (some tl.tracks)
  return { version := "1.9", project := some { name := tl.name, sequence := some sequence } }

/-! ## Digit-level lemmas for the rational time codec -/

/-- `natCharsAux` does not depend on the fuel once it is sufficient. -/
theorem natCharsAux_fuel (n : ℕ) :
    ∀ f₁ f₂, n < f₁ → n < f₂ → natCharsAux f₁ n = natCharsAux f₂ n := by
  induction n using Nat.strong_induction_on with
  | _ n ih =>
    intro f₁ f₂ h₁ h₂
    match f₁, h₁ with
    | g₁ + 1, h₁ =>
      match f₂, h₂ with
      | g₂ + 1, h₂ =>
        rw [natCharsAux, natCharsAux]
        by_cases h : n < 10
        · rw [if_pos h, if_pos h]
        · rw [if_neg h, if_neg h]
          rw [ih (n / 10) (Nat.div_lt_self (by omega) (by omega)) g₁ g₂
            (by omega) (by omega)]

/-- The recursion `natChars` satisfies, with the fuel hidden. -/
theorem natChars_eq (n : ℕ) :
    natChars n =
      if n < 10 then [digitChar n]
      else natChars (n / 10) ++ [digitChar (n % 10)] := by
  rw [natChars, natCharsAux]
  by_cases h : n < 10
  · rw [if_pos h, if_pos h]
  · rw [if_neg h, if_neg h, natChars]
    rw [natCharsAux_fuel (n / 10) n (n / 10 + 1) (by omega) (by omega)]

/-- A character that is a digit differs from any non-digit character. -/
theorem digit_ne_char {c d : Char} (hc : c.isDigit = true)
    (hd : ¬ d.isDigit = true) : c ≠ d := by
  intro h
  exact hd (h ▸ hc)

/-- `digitChar` produces digit characters. -/
theorem digitChar_isDigit {n : ℕ} (h : n < 10) : (digitChar n).isDigit = true := by
  interval_cases n <;> decide

/-- `digitChar` is inverted by the numeric value the parser computes. -/
theorem digitChar_toNat {n : ℕ} (h : n < 10) : (digitChar n).toNat - 48 = n := by
  interval_cases n <;> decide

/-- `natChars` never produces the empty list. -/
theorem natChars_ne_nil (n : ℕ) : natChars n ≠ [] := by
  rw [natChars_eq]
  split <;> simp

/-- Every character of `natChars` is a digit. -/
theorem natChars_isDigit (n : ℕ) : ∀ c ∈ natChars n, c.isDigit = true := by
  induction n using Nat.strong_induction_on with
  | _ n ih =>
    rw [natChars_eq]
    by_cases h : n < 10
    · rw [if_pos h]
      intro c hc
      simp at hc
      exact hc ▸ digitChar_isDigit h
    · rw [if_neg h]
      intro c hc
      rcases List.mem_append.mp hc with hm | hm
      · exact ih (n / 10) (Nat.div_lt_self (by omega) (by omega)) c hm
      · simp at hm
        exact hm ▸ digitChar_isDigit (by omega)

/-- The digit scanner consumes exactly the digits of `natChars n`,
accumulating `n` after the previous value. -/
theorem parseDigits_natChars (n : ℕ) :
    ∀ (acc : ℕ) (rest : List Char),
      parseDigits acc (natChars n ++ rest) =
        parseDigits (acc * 10 ^ (natChars n).length + n) rest := by
  induction n using Nat.strong_induction_on with
  | _ n ih =>
    intro acc rest
    by_cases h : n < 10
    · rw [natChars_eq, if_pos h]
      have h1 := digitChar_isDigit h
      have h2 := digitChar_toNat h
      simp [parseDigits, h1, h2]
      congr 1
      omega
    · rw [natChars_eq, if_neg h]
      rw [List.append_assoc]
      rw [ih (n / 10) (Nat.div_lt_self (by omega) (by omega))]
      have h1 := digitChar_isDigit (show n % 10 < 10 by omega)
      have h2 := digitChar_toNat (show n % 10 < 10 by omega)
      simp [parseDigits, h1, h2]
      congr 1
      rw [pow_succ, ← mul_assoc]
      generalize acc * 10 ^ (natChars (n / 10)).length = K
      omega

/-- A list of digits is counted in full. -/
theorem countDigits_all (l : List Char) (h : ∀ c ∈ l, c.isDigit = true) :
    countDigits l = l.length := by
  induction l with
  | nil => rfl
  | cons c cs ih =>
    rw [countDigits]
    rw [h c (by simp)]
    simp [ih (fun d hd => h d (List.mem_cons_of_mem _ hd))]

/-- The mantissa of `natChars n` is `n`, consuming the whole input. -/
theorem parseMantissa_natChars (n : ℕ) :
    parseMantissa (natChars n) = some ((n : ℚ), []) := by
  have hp := parseDigits_natChars n 0 []
  rw [List.append_nil] at hp
  rw [parseDigits] at hp
  have hc := countDigits_all (natChars n) (natChars_isDigit n)
  have hlen : (natChars n).length ≠ 0 := by
    intro hl
    exact natChars_ne_nil n (List.length_eq_zero.mp hl)
  rw [parseMantissa, hp]
  simp
  rw [hc]
  simp [hlen]

/-- The float-parser model reads back the decimal rendering of a natural
number. -/
theorem goParseFloat_natChars (n : ℕ) : goParseFloat (natChars n) = some (n : ℚ) := by
  obtain ⟨c, t, hct⟩ : ∃ c t, natChars n = c :: t := by
    cases h : natChars n with
    | nil => exact absurd h (natChars_ne_nil n)
    | cons c t => exact ⟨c, t, rfl⟩
  have hcd : c.isDigit = true := natChars_isDigit n c (by rw [hct]; simp)
  have hminus : ¬ c = '-' := digit_ne_char hcd (by decide)
  have hplus : ¬ c = '+' := digit_ne_char hcd (by decide)
  rw [hct, goParseFloat]
  simp [hminus, hplus]
  rw [← hct, parseMantissa_natChars n]
  simp [applyExp]

/-- The float-parser model reads back the decimal rendering of an
integer. -/
theorem goParseFloat_intChars (n : ℤ) : goParseFloat (intChars n) = some (n : ℚ) := by
  have habs : ((n.natAbs : ℤ) : ℚ) = ((n.natAbs : ℕ) : ℚ) := Int.cast_natCast n.natAbs
  rw [intChars]
  by_cases h : n < 0
  · have h1 : ((n.natAbs : ℚ)) = -(n : ℚ) := by
      have h2 : ((n.natAbs : ℕ) : ℤ) = -n := Int.ofNat_natAbs_of_nonpos (le_of_lt h)
      rw [← habs, h2]
      push_cast
      rfl
    simp only [if_pos h, goParseFloat]
    simp
    rw [parseMantissa_natChars n.natAbs]
    simp [applyExp]
    rw [h1, neg_neg]
  · have h1 : ((n.natAbs : ℚ)) = (n : ℚ) := by
      have h2 : (n.natAbs : ℤ) = n := Int.natAbs_of_nonneg (by omega)
      rw [← habs, h2]
    rw [if_neg h, goParseFloat_natChars n.natAbs, h1]

/-- No character of `intChars` is a slash. -/
theorem intChars_no_slash (n : ℤ) : '/' ∉ intChars n := by
  intro hm
  rw [intChars] at hm
  have hd : ∀ c ∈ natChars n.natAbs, c.isDigit = true := natChars_isDigit n.natAbs
  by_cases h : n < 0
  · rw [if_pos h] at hm
    rcases List.mem_cons.mp hm with h1 | h1
    · exact absurd h1.symm (by decide)
    · exact absurd (hd _ h1) (by decide)
  · rw [if_neg h] at hm
    exact absurd (hd _ hm) (by decide)

/-- A slash-free field is returned whole by the splitter. -/
theorem splitOnSlash_no_slash (l : List Char) (h : '/' ∉ l) :
    splitOnSlash l = [l] := by
  induction l with
  | nil => rfl
  | cons c cs ih =>
    have hc : ¬ c = '/' := fun hh => h (by simp [hh])
    rw [splitOnSlash, if_neg hc, ih (fun hm => h (List.mem_cons_of_mem _ hm))]

/-- Splitting at the first slash after a slash-free field yields that field
followed by the split of the remainder. -/
theorem splitOnSlash_append (a b : List Char) (ha : '/' ∉ a) :
    splitOnSlash (a ++ '/' :: b) = a :: splitOnSlash b := by
  induction a with
  | nil => simp [splitOnSlash]
  | cons c cs ih =>
    have hc : ¬ c = '/' := fun hh => ha (by simp [hh])
    rw [List.cons_append, splitOnSlash, if_neg hc,
      ih (fun hm => ha (List.mem_cons_of_mem _ hm))]

/-- Stripping the trailing unit suffix undoes its concatenation. -/
theorem trimTrailingS_concat (x : List Char) : trimTrailingS (x ++ ['s']) = x := by
  simp [trimTrailingS, List.getLast?_concat, List.dropLast_concat]

/-- Go's `int64` conversion is the identity on integers within the int64
range. -/
theorem qTrunc_intCast (n : ℤ) (h1 : int64Min ≤ n) (h2 : n ≤ int64Max) :
    qTrunc ((n : ℤ) : ℚ) = n := by
  have ht : (if 0 ≤ ((n : ℤ) : ℚ) then ⌊((n : ℤ) : ℚ)⌋ else ⌈((n : ℤ) : ℚ)⌉) = n := by
    split <;> simp
  simp only [qTrunc, ht]
  rw [if_neg]
  push_neg
  exact ⟨h1, h2⟩

/-! ## Claim theorems: the rational time codec -/

/-- C4 counterexample: at the integral float64 value 2^63 (exactly
representable, rate 24) the round trip is not the identity — the int64
conversion in `formatRationalTime` overflows, so the formatted literal
reads back as the minimal int64 instead of the original value. -/
theorem int64_overflow_breaks_roundtrip :
    parseRationalTime goParseFloat
        (formatRationalTime ⟨((9223372036854775808 : ℤ) : ℚ), ((24 : ℤ) : ℚ)⟩) =
      .ok ⟨((-9223372036854775808 : ℤ) : ℚ), ((24 : ℤ) : ℚ)⟩ ∧
    ((-9223372036854775808 : ℤ) : ℚ) ≠ ((9223372036854775808 : ℤ) : ℚ) := by
  constructor
  · decide
  · decide

/-- C4 (amended): for every integer value and every integer rate within
the int64 range, with rate > 0, parsing the formatted fraction literal
returns exactly (value, rate). -/
theorem parse_format_roundtrip (v r : ℤ)
    (hv1 : int64Min ≤ v) (hv2 : v ≤ int64Max)
    (hr : 0 < r) (hr2 : r ≤ int64Max) :
    parseRationalTime goParseFloat (formatRationalTime ⟨(v : ℚ), (r : ℚ)⟩) =
      .ok ⟨(v : ℚ), (r : ℚ)⟩ := by
  have hrq : ¬ ((r : ℚ) ≤ 0) := by rw [not_le]; exact_mod_cast hr
  have hr1 : int64Min ≤ r := by
    have : (0 : ℤ) ≤ r := le_of_lt hr
    rw [int64Min]
    omega
  have hfmt : formatRationalTime ⟨(v : ℚ), (r : ℚ)⟩ =
      (intChars v ++ '/' :: intChars r) ++ ['s'] := by
    simp [formatRationalTime, hrq, qTrunc_intCast v hv1 hv2, qTrunc_intCast r hr1 hr2]
  rw [hfmt]
  have hne : ((intChars v ++ '/' :: intChars r) ++ ['s'] : List Char) ≠ [] := by simp
  rw [parseRationalTime, if_neg hne]
  simp only [trimTrailingS_concat]
  rw [splitOnSlash_append _ _ (intChars_no_slash v),
    splitOnSlash_no_slash _ (intChars_no_slash r)]
  simp only [goParseFloat_intChars]

/-- Witness for C4 at (1200, 24): the formatted literal parses back. -/
theorem parse_format_roundtrip_witness :
    int64Min ≤ (1200 : ℤ) ∧ (1200 : ℤ) ≤ int64Max ∧
    (0 : ℤ) < 24 ∧ (24 : ℤ) ≤ int64Max ∧
      parseRationalTime goParseFloat
          (formatRationalTime ⟨((1200 : ℤ) : ℚ), ((24 : ℤ) : ℚ)⟩) =
        .ok ⟨((1200 : ℤ) : ℚ), ((24 : ℤ) : ℚ)⟩ :=
  ⟨by decide, by decide, by decide, by decide,
   parse_format_roundtrip 1200 24 (by decide) (by decide) (by decide) (by decide)⟩

/-- C3: `parseRationalTime` is a total case analysis over its input (after
stripping the optional trailing unit suffix): empty input is the zero time
value without error; two slash-separated fields that both parse as reals
give (value, rate); a non-fraction shape that parses as a bare real gives
(value, 24); every remaining input fails with a malformed-time error. -/
theorem parse_case_analysis (pf : List Char → Option ℚ) (s : List Char) :
    (s = [] → parseRationalTime pf s = .ok ⟨0, 0⟩) ∧
    (∀ a b va vb, s ≠ [] → splitOnSlash (trimTrailingS s) = [a, b] →
      pf a = some va → pf b = some vb →
      parseRationalTime pf s = .ok ⟨va, vb⟩) ∧
    (∀ v, s ≠ [] → (splitOnSlash (trimTrailingS s)).length ≠ 2 →
      pf (trimTrailingS s) = some v →
      parseRationalTime pf s = .ok ⟨v, 24⟩) ∧
    (s ≠ [] →
      (∀ a b, splitOnSlash (trimTrailingS s) = [a, b] → pf a = none ∨ pf b = none) →
      ((splitOnSlash (trimTrailingS s)).length ≠ 2 → pf (trimTrailingS s) = none) →
      ∃ e, parseRationalTime pf s = .error e) := by
  refine ⟨?_, ?_, ?_, ?_⟩
  · intro h
    rw [parseRationalTime, if_pos h]
  · intro a b va vb hne hsplit ha hb
    rw [parseRationalTime, if_neg hne]
    simp only [hsplit, ha, hb]
  · intro v hne hlen hv
    rw [parseRationalTime, if_neg hne]
    cases hsp : splitOnSlash (trimTrailingS s) with
    | nil => simp only [hsp, hv]
    | cons a l =>
      cases l with
      | nil => simp only [hsp, hv]
      | cons b l' =>
        cases l' with
        | nil => exact absurd (by rw [hsp]; rfl) hlen
        | cons c l'' => simp only [hsp, hv]
  · intro hne h2 hother
    rw [parseRationalTime, if_neg hne]
    cases hsp : splitOnSlash (trimTrailingS s) with
    | nil =>
      rw [hother (by rw [hsp]; decide)]
      exact ⟨.invalidFormat, rfl⟩
    | cons a l =>
      cases l with
      | nil =>
        rw [hother (by rw [hsp]; simp)]
        exact ⟨.invalidFormat, rfl⟩
      | cons b l' =>
        cases l' with
        | nil =>
          rcases h2 a b hsp with hpa | hpb
          · simp only [hpa]
            exact ⟨.invalidNumerator, rfl⟩
          · cases hpa : pf a with
            | none => simp only [hpa]; exact ⟨.invalidNumerator, rfl⟩
            | some va => simp only [hpa, hpb]; exact ⟨.invalidDenominator, rfl⟩
        | cons c l'' =>
          rw [hother (by rw [hsp]; simp)]
          exact ⟨.invalidFormat, rfl⟩

/-- Witness for C3, exercising all four cases at concrete inputs: the
empty attribute, the fraction `"1001/30000s"`, the bare number `"24"`, and
the malformed input `"invalid"`. -/
theorem parse_case_analysis_witness :
    parseRationalTime goParseFloat [] = .ok ⟨0, 0⟩ ∧
    parseRationalTime goParseFloat (("1001/30000s").toList) = .ok ⟨1001, 30000⟩ ∧
    parseRationalTime goParseFloat (("24").toList) = .ok ⟨24, 24⟩ ∧
    ∃ e, parseRationalTime goParseFloat (("invalid").toList) = .error e :=
  ⟨(parse_case_analysis goParseFloat []).1 rfl,
   (parse_case_analysis goParseFloat (("1001/30000s").toList)).2.1
     (("1001").toList) (("30000").toList) 1001 30000
     (by decide) (by decide) (by decide) (by decide),
   (parse_case_analysis goParseFloat (("24").toList)).2.2.1 24
     (by decide) (by decide) (by decide),
   (parse_case_analysis goParseFloat (("invalid").toList)).2.2.2
     (by decide)
     (fun a b h => by
       rw [(by decide :
         splitOnSlash (trimTrailingS (("invalid").toList)) = [("invalid").toList])] at h
       simp at h)
     (by decide)⟩

/-! ## Error shape of the decoder

Every failure below project resolution is produced by `Except.mapError`
around a time parse, so it is a `badTime` error, never `noProjectFound`.
The lemmas follow the do-notation structure of the conversion functions. -/

/-- A suffix of a conversion that starts by parsing a time attribute
can only fail with errors its continuation produces or a `badTime`. -/
theorem noProj_mapError_bind {α β : Type} {x : Except TimeErr α} {f : String}
    {g : α → Except DecodeError β} {e : DecodeError}
    (h : x.mapError (DecodeError.badTime f) >>= g = .error e)
    (hg : ∀ a, g a = .error e → e ≠ .noProjectFound) :
    e ≠ .noProjectFound := by
  cases x with
  | error te =>
    have h2 : (Except.error (DecodeError.badTime f te) : Except DecodeError β) = .error e := h
    injection h2 with h3
    rw [← h3]
    simp
  | ok a =>
    exact hg a h

/-- As `noProj_mapError_bind`, for the guarded form parsing an optional
attribute (stated in the join-point shape the do-notation produces). -/
theorem noProj_optStart {β : Type} {cond : Prop} [Decidable cond]
    {x : Except TimeErr RationalTime} {f : String}
    {g : RationalTime → Except DecodeError β} {e : DecodeError}
    (h : (if cond then x.mapError (DecodeError.badTime f) >>= g
          else pure ⟨0, 0⟩ >>= g) = .error e)
    (hg : ∀ a, g a = .error e → e ≠ .noProjectFound) : e ≠ .noProjectFound := by
  by_cases hc : cond
  · rw [if_pos hc] at h
    exact noProj_mapError_bind h hg
  · rw [if_neg hc] at h
    exact hg _ h

/-- A `return` never fails. -/
theorem noProj_pure {β : Type} (b : β) (e : DecodeError)
    (h : (pure b : Except DecodeError β) = .error e) : e ≠ .noProjectFound := by
  exact absurd h (by simp [pure, Except.pure])

/-- `convertMarker` fails only on malformed time attributes. -/
theorem convertMarker_err (m : Marker) (e : DecodeError)
    (h : convertMarker m = .error e) : e ≠ .noProjectFound := by
  rw [convertMarker] at h
  refine noProj_mapError_bind h (fun start h2 => ?_)
  refine noProj_optStart h2 (fun dur h3 => ?_)
  exact noProj_pure _ _ h3

/-- `convertMarkers` fails only on malformed time attributes. -/
theorem convertMarkers_err (ms : List Marker) (e : DecodeError)
    (h : convertMarkers ms = .error e) : e ≠ .noProjectFound := by
  induction ms with
  | nil => exact absurd h (by simp [convertMarkers])
  | cons m ms ih =>
    rw [convertMarkers] at h
    cases hm : convertMarker m with
    | error te =>
      rw [hm] at h
      have h2 : (Except.error te : Except DecodeError (List TLMarker)) = .error e := h
      injection h2 with h3
      exact h3 ▸ convertMarker_err m te hm
    | ok mk =>
      rw [hm] at h
      cases hr : convertMarkers ms with
      | error te =>
        rw [hr] at h
        have h2 : (Except.error te : Except DecodeError (List TLMarker)) = .error e := h
        injection h2 with h3
        exact ih (h3 ▸ hr)
      | ok rest =>
        rw [hr] at h
        exact noProj_pure _ _ h

/-- `convertClip` fails only on malformed time attributes. -/
theorem convertClip_err (c : Clip) (vt aud : List TLItem) (e : DecodeError)
    (h : convertClip c vt aud = .error e) : e ≠ .noProjectFound := by
  rw [convertClip] at h
  refine noProj_mapError_bind h (fun duration h2 => ?_)
  refine noProj_optStart h2 (fun start h3 => ?_)
  cases hm : convertMarkers c.markers with
  | error te =>
    rw [hm] at h3
    have h4 : (Except.error te : Except DecodeError (List TLItem × List TLItem)) = .error e := h3
    injection h4 with h5
    exact h5 ▸ convertMarkers_err _ te hm
  | ok ms =>
    rw [hm] at h3
    exact noProj_pure _ _ h3

/-- `convertVideo` fails only on malformed time attributes. -/
theorem convertVideo_err (v : Video) (vt : List TLItem) (e : DecodeError)
    (h : convertVideo v vt = .error e) : e ≠ .noProjectFound := by
  rw [convertVideo] at h
  refine noProj_mapError_bind h (fun duration h2 => ?_)
  refine noProj_optStart h2 (fun start h3 => ?_)
  cases hm : convertMarkers v.markers with
  | error te =>
    rw [hm] at h3
    have h4 : (Except.error te : Except DecodeError (List TLItem)) = .error e := h3
    injection h4 with h5
    exact h5 ▸ convertMarkers_err _ te hm
  | ok ms =>
    rw [hm] at h3
    exact noProj_pure _ _ h3

/-- `convertAudio` fails only on malformed time attributes. -/
theorem convertAudio_err (a : Audio) (aud : List TLItem) (e : DecodeError)
    (h : convertAudio a aud = .error e) : e ≠ .noProjectFound := by
  rw [convertAudio] at h
  refine noProj_mapError_bind h (fun duration h2 => ?_)
  refine noProj_optStart h2 (fun start h3 => ?_)
  exact noProj_pure _ _ h3

/-- `convertGap` fails only on malformed time attributes. -/
theorem convertGap_err (g : Gap) (vt aud : List TLItem) (e : DecodeError)
    (h : convertGap g vt aud = .error e) : e ≠ .noProjectFound := by
  rw [convertGap] at h
  refine noProj_mapError_bind h (fun duration h2 => ?_)
  exact noProj_pure _ _ h2

/-- `convertRefClip` fails only on malformed time attributes. -/
theorem convertRefClip_err (r : RefClip) (vt aud : List TLItem) (e : DecodeError)
    (h : convertRefClip r vt aud = .error e) : e ≠ .noProjectFound := by
  rw [convertRefClip] at h
  refine noProj_mapError_bind h (fun duration h2 => ?_)
  refine noProj_optStart h2 (fun start h3 => ?_)
  cases hm : convertMarkers r.markers with
  | error te =>
    rw [hm] at h3
    have h4 : (Except.error te : Except DecodeError (List TLItem × List TLItem)) = .error e := h3
    injection h4 with h5
    exact h5 ▸ convertMarkers_err _ te hm
  | ok ms =>
    rw [hm] at h3
    by_cases hsrc : r.srcEnable = "audio"
    · simp only [if_pos hsrc] at h3
      exact noProj_pure _ _ h3
    · simp only [if_neg hsrc] at h3
      exact noProj_pure _ _ h3

/-- One spine step fails only on malformed time attributes. -/
theorem convertStep_err (item : SpineItem) (vt aud : List TLItem) (e : DecodeError)
    (h : convertStep item vt aud = .error e) : e ≠ .noProjectFound := by
  cases item with
  | clip c => exact convertClip_err c vt aud e h
  | video v =>
    rw [convertStep] at h
    cases hv : convertVideo v vt with
    | error te =>
      rw [hv] at h
      have h2 : (Except.error te : Except DecodeError (List TLItem × List TLItem)) = .error e := h
      injection h2 with h3
      exact h3 ▸ convertVideo_err v vt te hv
    | ok vt' => rw [hv] at h; exact absurd h (by simp [Except.map])
  | audio a =>
    rw [convertStep] at h
    cases ha : convertAudio a aud with
    | error te =>
      rw [ha] at h
      have h2 : (Except.error te : Except DecodeError (List TLItem × List TLItem)) = .error e := h
      injection h2 with h3
      exact h3 ▸ convertAudio_err a aud te ha
    | ok aud' => rw [ha] at h; exact absurd h (by simp [Except.map])
  | gap g => exact convertGap_err g vt aud e h
  | transition t => exact absurd h (by simp [convertStep])
  | title t => exact absurd h (by simp [convertStep])
  | refClip r => exact convertRefClip_err r vt aud e h

/-- The spine loop fails only on malformed time attributes. -/
theorem processItems_err (items : List SpineItem) :
    ∀ (vt aud : List TLItem) (e : DecodeError),
      processItems items vt aud = .error e → e ≠ .noProjectFound := by
  induction items with
  | nil => intro vt aud e h; exact absurd h (by simp [processItems])
  | cons i is ih =>
    intro vt aud e h
    rw [processItems] at h
    cases hs : convertStep i vt aud with
    | error te =>
      rw [hs] at h
      have h2 : (Except.error te : Except DecodeError (List TLItem × List TLItem)) = .error e := h
      injection h2 with h3
      exact h3 ▸ convertStep_err i vt aud te hs
    | ok p =>
      rw [hs] at h
      exact ih p.1 p.2 e h

/-- `convertSequenceToTracks` fails only on malformed time attributes. -/
theorem convertSequenceToTracks_err (seq : Sequence) (tl : Timeline) (e : DecodeError)
    (h : convertSequenceToTracks seq tl = .error e) : e ≠ .noProjectFound := by
  rw [convertSequenceToTracks] at h
  cases hsp : seq.spine with
  | none => rw [hsp] at h; exact absurd h (by simp)
  | some spine =>
    simp only [hsp] at h
    cases hp : processItems spine.items [] [] with
    | error te =>
      rw [hp] at h
      have h2 : (Except.error te : Except DecodeError Timeline) = .error e := h
      injection h2 with h3
      exact h3 ▸ processItems_err spine.items [] [] te hp
    | ok p =>
      rw [hp] at h
      obtain ⟨vt, aud⟩ := p
      exact noProj_pure _ _ h

/-! ## Claim theorems: project resolution (decoder) -/

/-- C1 counterexample: in a document whose `library` is present but holds
no project anywhere, a project under the root-level `event` is NOT found —
the root-level event is only consulted when no library element exists, so
decode fails with `NoProjectFound` although the fourth fallback position
holds a project. -/
theorem library_blocks_event_project :
    ({ name := "E", projects := [{ name := "P" }] } : Event).projects.head? =
      some { name := "P" } ∧
    resolveProject
      { version := "1.9",
        library := some { location := "", events := [], projects := [] },
        event := some { name := "E", projects := [{ name := "P" }] },
        project := none } = none ∧
    convertToTimeline
      { version := "1.9",
        library := some { location := "", events := [], projects := [] },
        event := some { name := "E", projects := [{ name := "P" }] },
        project := none } = .error .noProjectFound :=
  ⟨rfl, rfl, rfl⟩

/-- C1 (amended): project resolution prefers the document-root project;
otherwise, when a `library` element is present, the library's first direct
project, else the first project of the first library event that has any
project — the root-level event is consulted only when no library element is
present.  Decode fails with `NoProjectFound` exactly when the applicable
chain yields nothing. -/
theorem resolve_precedence (d : FCPXML) :
    (∀ p, d.project = some p → resolveProject d = some p) ∧
    (∀ lib p ps, d.project = none → d.library = some lib →
      lib.projects = p :: ps → resolveProject d = some p) ∧
    (∀ lib, d.project = none → d.library = some lib → lib.projects = [] →
      resolveProject d = firstEventProject lib.events) ∧
    (∀ ev, d.project = none → d.library = none → d.event = some ev →
      resolveProject d = ev.projects.head?) ∧
    (d.project = none → d.library = none → d.event = none →
      resolveProject d = none) ∧
    (∀ evs, firstEventProject evs =
      (evs.find? (fun ev => !ev.projects.isEmpty)).bind
        (fun ev => ev.projects.head?)) ∧
    (convertToTimeline d = .error .noProjectFound ↔ resolveProject d = none) := by
  refine ⟨?_, ?_, ?_, ?_, ?_, ?_, ?_⟩
  · intro p hp
    simp only [resolveProject, hp]
  · intro lib p ps h1 h2 h3
    simp only [resolveProject, h1, h2, h3]
  · intro lib h1 h2 h3
    simp only [resolveProject, h1, h2, h3]
  · intro ev h1 h2 h3
    simp only [resolveProject, h1, h2, h3]
  · intro h1 h2 h3
    simp only [resolveProject, h1, h2, h3]
  · intro evs
    induction evs with
    | nil => rfl
    | cons ev evs ih =>
      rw [firstEventProject]
      cases hp : ev.projects with
      | nil => simp [List.find?, hp, ih]
      | cons p ps => simp [List.find?, hp]
  · constructor
    · intro he
      cases hr : resolveProject d with
      | none => rfl
      | some p =>
        exfalso
        simp only [convertToTimeline, hr] at he
        cases hs : p.sequence with
        | none => rw [hs] at he; exact Except.noConfusion he
        | some seq =>
          rw [hs] at he
          exact convertSequenceToTracks_err seq _ _ he rfl
    · intro hr
      simp only [convertToTimeline, hr]

/-- Witness for C1 (amended): a document with both a root project and a
library project resolves to the root project, and an otherwise-empty
document errors with `NoProjectFound`. -/
theorem resolve_precedence_witness :
    resolveProject
      { version := "1.9",
        library := some { location := "", events := [],
                          projects := [{ name := "LibP" }] },
        project := some { name := "RootP" } } = some { name := "RootP" } ∧
    (convertToTimeline ({ version := "1.9" } : FCPXML) = .error .noProjectFound ↔
      resolveProject ({ version := "1.9" } : FCPXML) = none) :=
  ⟨(resolve_precedence _).1 { name := "RootP" } rfl,
   (resolve_precedence ({ version := "1.9" } : FCPXML)).2.2.2.2.2.2⟩

/-- C10: when the resolved project has no sequence, or its sequence has no
spine, decode succeeds with a timeline whose root stack holds no tracks;
and every decode failure below project resolution is a malformed time
attribute. -/
theorem decode_ok_without_spine (d : FCPXML) (p : Project)
    (hp : resolveProject d = some p) :
    ((p.sequence = none ∨ ∃ seq, p.sequence = some seq ∧ seq.spine = none) →
      convertToTimeline d = .ok ⟨p.name, []⟩) ∧
    (∀ e, convertToTimeline d = .error e → ∃ f te, e = .badTime f te) := by
  constructor
  · intro hcase
    simp only [convertToTimeline, hp]
    rcases hcase with hnone | ⟨seq, hseq, hspine⟩
    · rw [hnone]
    · rw [hseq]
      simp only [convertSequenceToTracks, hspine]
  · intro e he
    cases e with
    | badTime f te => exact ⟨f, te, rfl⟩
    | noProjectFound =>
      exfalso
      simp only [convertToTimeline, hp] at he
      cases hs : p.sequence with
      | none => rw [hs] at he; exact Except.noConfusion he
      | some seq =>
        rw [hs] at he
        exact convertSequenceToTracks_err seq _ _ he rfl

/-- Witness for C10: a project without a sequence decodes to a timeline
with no tracks, and one whose sequence has no spine does too. -/
theorem decode_ok_without_spine_witness :
    convertToTimeline { version := "1.9", project := some { name := "N" } } =
      .ok ⟨"N", []⟩ ∧
    convertToTimeline
      { version := "1.9",
        project := some { name := "M", sequence := some { format := "r1" } } } =
      .ok ⟨"M", []⟩ :=
  ⟨(decode_ok_without_spine { version := "1.9", project := some { name := "N" } }
      { name := "N" } rfl).1 (Or.inl rfl),
   (decode_ok_without_spine
      { version := "1.9",
        project := some { name := "M", sequence := some { format := "r1" } } }
      { name := "M", sequence := some { format := "r1" } }
      rfl).1 (Or.inr ⟨{ format := "r1" }, rfl, rfl⟩)⟩

/-! ## Claim theorems: track synthesis and per-variant conversion -/

/-- C6: for a sequence with a spine whose loop succeeds, the decoder
materializes exactly one video track "Video 1" and one audio track
"Audio 1", and appends a track to the (initially empty) root stack iff it
ends up with at least one child; hence the output holds at most one track
per kind and every track in it is non-empty. -/
theorem track_materialization (seq : Sequence) (tl : Timeline) (spine : Spine)
    (vt aud : List TLItem)
    (hsp : seq.spine = some spine) (htl : tl.tracks = [])
    (hp : processItems spine.items [] [] = .ok (vt, aud)) :
    ∃ tl', convertSequenceToTracks seq tl = .ok tl' ∧
      tl'.name = tl.name ∧
      tl'.tracks =
        (if vt ≠ [] then [⟨"Video 1", .video, vt⟩] else []) ++
        (if aud ≠ [] then [⟨"Audio 1", .audio, aud⟩] else []) ∧
      (∀ tr ∈ tl'.tracks, tr.children ≠ []) ∧
      tl'.tracks.countP (fun tr => tr.kind == TrackKind.video) ≤ 1 ∧
      tl'.tracks.countP (fun tr => tr.kind == TrackKind.audio) ≤ 1 ∧
      (∀ tr ∈ tl'.tracks, (tr.kind = .video → tr.name = "Video 1") ∧
        (tr.kind = .audio → tr.name = "Audio 1")) := by
  refine ⟨{ tl with tracks :=
      (if vt ≠ [] then [⟨"Video 1", .video, vt⟩] else []) ++
      (if aud ≠ [] then [⟨"Audio 1", .audio, aud⟩] else []) }, ?_, rfl, rfl,
    ?_, ?_, ?_, ?_⟩
  · simp only [convertSequenceToTracks, hsp]
    rw [hp]
    by_cases hv : vt = [] <;> by_cases ha : aud = [] <;>
      simp [hv, ha, htl]
  · intro tr htr
    rcases List.mem_append.mp htr with hm | hm
    · by_cases hv : vt = []
      · simp [hv] at hm
      · simp [hv] at hm
        subst hm
        simpa using hv
    · by_cases ha : aud = []
      · simp [ha] at hm
      · simp [ha] at hm
        subst hm
        simpa using ha
  · by_cases hv : vt = [] <;> by_cases ha : aud = [] <;>
      simp [hv, ha, List.countP, List.countP.go] <;> decide
  · by_cases hv : vt = [] <;> by_cases ha : aud = [] <;>
      simp [hv, ha, List.countP, List.countP.go] <;> decide
  · intro tr htr
    rcases List.mem_append.mp htr with hm | hm
    · by_cases hv : vt = []
      · simp [hv] at hm
      · simp [hv] at hm
        subst hm
        exact ⟨fun hk => rfl, fun hk => absurd hk (by simp)⟩
    · by_cases ha : aud = []
      · simp [ha] at hm
      · simp [ha] at hm
        subst hm
        exact ⟨fun hk => absurd hk (by simp), fun hk => rfl⟩

/-- Witness for C6 on the spine [Video, Gap, Video]: the gap fans out to
the audio track as well, so both tracks are non-empty and both are
emitted. -/
theorem track_materialization_witness :
    ∃ tl', convertSequenceToTracks
        { format := "r1",
          spine := some ⟨[
            .video { name := "Clip 1", duration := "1200/24s", start := "0/24s" },
            .gap { name := "Gap", duration := "600/24s" },
            .video { name := "Clip 2", duration := "1800/24s", start := "0/24s" }]⟩ }
        ⟨"Test Project", []⟩ = .ok tl' ∧
      tl'.name = "Test Project" ∧
      tl'.tracks =
        (if ([(TLItem.clip ⟨"Clip 1", some ⟨⟨0, 24⟩, ⟨1200, 24⟩⟩, []⟩),
             .gap ⟨"Gap", some ⟨⟨0, 0⟩, ⟨600, 24⟩⟩⟩,
             .clip ⟨"Clip 2", some ⟨⟨0, 24⟩, ⟨1800, 24⟩⟩, []⟩] : List TLItem) ≠ []
         then [⟨"Video 1", .video,
                [.clip ⟨"Clip 1", some ⟨⟨0, 24⟩, ⟨1200, 24⟩⟩, []⟩,
                 .gap ⟨"Gap", some ⟨⟨0, 0⟩, ⟨600, 24⟩⟩⟩,
                 .clip ⟨"Clip 2", some ⟨⟨0, 24⟩, ⟨1800, 24⟩⟩, []⟩]⟩]
         else []) ++
        (if ([(TLItem.gap ⟨"Gap", some ⟨⟨0, 0⟩, ⟨600, 24⟩⟩⟩)] : List TLItem) ≠ []
         then [⟨"Audio 1", .audio, [.gap ⟨"Gap", some ⟨⟨0, 0⟩, ⟨600, 24⟩⟩⟩]⟩]
         else []) ∧
      (∀ tr ∈ tl'.tracks, tr.children ≠ []) ∧
      tl'.tracks.countP (fun tr => tr.kind == TrackKind.video) ≤ 1 ∧
      tl'.tracks.countP (fun tr => tr.kind == TrackKind.audio) ≤ 1 ∧
      (∀ tr ∈ tl'.tracks, (tr.kind = .video → tr.name = "Video 1") ∧
        (tr.kind = .audio → tr.name = "Audio 1")) :=
  track_materialization _ _ _ _ _ rfl rfl (by decide)

/-- C7: a spine gap is appended to both the video and the audio children
with the source gap's duration and a source-range start equal to the zero
time value, whatever `offset` or `start` the source gap declares. -/
theorem gap_fanout (g : Gap) (vt aud : List TLItem) (d : RationalTime)
    (hd : goParse g.duration = .ok d) :
    convertGap g vt aud =
      .ok (vt ++ [.gap ⟨g.name, some ⟨⟨0, 0⟩, d⟩⟩],
           aud ++ [.gap ⟨g.name, some ⟨⟨0, 0⟩, d⟩⟩]) := by
  rw [convertGap, hd]
  rfl

/-- Witness for C7: a gap declaring non-zero `offset` and `start` still
lands on both tracks with a zero source-range start. -/
theorem gap_fanout_witness :
    goParse ("600/24s") = .ok ⟨600, 24⟩ ∧
    convertGap
        { name := "Gap", offset := "5/24s", start := "7/24s",
          duration := "600/24s" } [] [] =
      .ok ([.gap ⟨"Gap", some ⟨⟨0, 0⟩, ⟨600, 24⟩⟩⟩],
           [.gap ⟨"Gap", some ⟨⟨0, 0⟩, ⟨600, 24⟩⟩⟩]) :=
  ⟨by decide,
   gap_fanout
     { name := "Gap", offset := "5/24s", start := "7/24s",
       duration := "600/24s" } [] [] ⟨600, 24⟩ (by decide)⟩

/-- C8: a ref-clip becomes a Stack carrying its source range and markers,
with metadata binding `fcpx_ref` to the reference id and, when the
source-enable discriminator is non-empty, `fcpx_src_enable` to it; the
stack goes to the audio track iff the discriminator is `"audio"`, else to
the video track. -/
theorem refclip_conversion (r : RefClip) (vt aud : List TLItem)
    (d s : RationalTime) (ms : List TLMarker)
    (hd : goParse r.duration = .ok d)
    (hs : r.start ≠ "" → goParse r.start = .ok s)
    (hs0 : r.start = "" → s = ⟨0, 0⟩)
    (hm : convertMarkers r.markers = .ok ms) :
    ∃ meta,
      convertRefClip r vt aud =
        .ok (if r.srcEnable = "audio"
             then (vt, aud ++ [.stack ⟨r.name, some ⟨s, d⟩, ms, meta⟩])
             else (vt ++ [.stack ⟨r.name, some ⟨s, d⟩, ms, meta⟩], aud)) ∧
      meta.lookup ("fcpx_ref") = some r.ref ∧
      (r.srcEnable ≠ "" → meta.lookup ("fcpx_src_enable") = some r.srcEnable) := by
  refine ⟨("fcpx_ref", r.ref) ::
      (if r.srcEnable ≠ "" then [("fcpx_src_enable", r.srcEnable)] else []),
    ?_, ?_, ?_⟩
  · rw [convertRefClip, hd]
    by_cases hst : r.start = ""
    · have hseq := hs0 hst
      subst hseq
      simp only [hst]
      by_cases hsrc : r.srcEnable = "audio" <;> simp [hm, hsrc] <;> rfl
    · rw [hs hst]
      by_cases hsrc : r.srcEnable = "audio" <;> simp [hm, hsrc, hst] <;> rfl
  · simp [List.lookup]
  · intro hne
    simp [List.lookup, hne]

/-- Witness for C8: a ref-clip with `srcEnable="audio"` lands in the audio
children as a stack with both metadata keys. -/
theorem refclip_conversion_witness :
    ∃ meta,
      convertRefClip
          { name := "CC", ref := "r7", start := "12/24s",
            duration := "48/24s", srcEnable := "audio" } [] [] =
        .ok (if ("audio" : String) = "audio"
             then (([] : List TLItem),
                   [.stack ⟨"CC", some ⟨⟨12, 24⟩, ⟨48, 24⟩⟩, [], meta⟩])
             else ([.stack ⟨"CC", some ⟨⟨12, 24⟩, ⟨48, 24⟩⟩, [], meta⟩], [])) ∧
      meta.lookup ("fcpx_ref") = some ("r7") ∧
      (("audio" : String) ≠ "" → meta.lookup ("fcpx_src_enable") = some ("audio")) :=
  refclip_conversion
      { name := "CC", ref := "r7", start := "12/24s",
        duration := "48/24s", srcEnable := "audio" } [] [] ⟨48, 24⟩ ⟨12, 24⟩ []
    (by decide) (fun _ => by decide) (fun h => absurd h (by decide)) (by decide)

/-- C9: a spine element tagged `title` is decoded into the item list as the
Title variant, and the decoder's per-variant conversion silently produces
no timeline item for it — the Go type switch has no Title case, so titles
are dropped exactly like transitions, without error. -/
theorem title_silently_dropped :
    (∀ body, dispatchTag ("title") body = some (.title body)) ∧
    (∀ (t : Title) (vt aud : List TLItem),
      convertStep (.title t) vt aud = .ok (vt, aud)) ∧
    (∀ (t : Transition) (vt aud : List TLItem),
      convertStep (.transition t) vt aud = .ok (vt, aud)) :=
  ⟨fun body => by simp [dispatchTag],
   fun t vt aud => rfl,
   fun t vt aud => rfl⟩



/-! ## Claim theorems: the polymorphic spine decode rule -/

mutual

/-- A flattened well-formed node is balanced: scanning it leaves the depth
unchanged and passes through to the rest of the stream. -/
theorem splitElem_flattenNode (c : XNode) (l : List Tok) (d : ℕ) :
    splitElem (flattenNode c ++ l) d =
      (splitElem l d).map (fun p => (flattenNode c ++ p.1, p.2)) := by
  match c with
  | .text =>
    rw [flattenNode]
    rw [List.cons_append, List.nil_append, splitElem]
    cases hs : splitElem l d <;> simp [hs]
  | .elem n cs =>
    rw [flattenNode]
    simp only [List.cons_append, List.append_assoc, List.nil_append]
    rw [splitElem]
    rw [splitElem_flattenForest cs (Tok.endTag :: l) (d + 1)]
    rw [splitElem]
    cases hs : splitElem l d <;> simp [hs]

/-- A flattened well-formed forest is balanced. -/
theorem splitElem_flattenForest (cs : List XNode) (l : List Tok) (d : ℕ) :
    splitElem (flattenForest cs ++ l) d =
      (splitElem l d).map (fun p => (flattenForest cs ++ p.1, p.2)) := by
  match cs with
  | [] =>
    rw [flattenForest]
    rw [List.nil_append]
    cases hs : splitElem l d <;> simp [hs]
  | c :: cs' =>
    rw [flattenForest]
    rw [List.append_assoc]
    rw [splitElem_flattenNode c (flattenForest cs' ++ l) d]
    rw [splitElem_flattenForest cs' l d]
    cases hs : splitElem l d <;> simp [hs, List.append_assoc]

end

/-- The unmarshal loop, given at least one fuel unit per token, returns —
without error — exactly the recognized top-level tags of a well-formed
child forest, in document order. -/
theorem unmarshalAux_flatten (cs : List XNode) :
    ∀ fuel, (flattenForest cs ++ [Tok.endTag]).length ≤ fuel →
      unmarshalAux fuel (flattenForest cs ++ [Tok.endTag]) =
        .ok (topLevelItems cs) := by
  induction cs with
  | nil =>
    intro fuel hf
    rw [flattenForest, List.nil_append] at hf ⊢
    match fuel, hf with
    | g + 1, _ => rfl
  | cons c cs' ih =>
    intro fuel hf
    match c with
    | .text =>
      rw [flattenForest, flattenNode] at hf ⊢
      simp only [List.cons_append, List.nil_append] at hf ⊢
      match fuel, hf with
      | g + 1, hf =>
        refine ih g ?_
        simp only [List.length_cons] at hf
        omega
    | .elem n body =>
      rw [flattenForest, flattenNode] at hf ⊢
      simp only [List.cons_append, List.append_assoc, List.nil_append] at hf ⊢
      match fuel, hf with
      | g + 1, hf =>
        have hsplit :
            splitElem
              (flattenForest body ++ Tok.endTag :: (flattenForest cs' ++ [Tok.endTag])) 0 =
              some (flattenForest body ++ [], flattenForest cs' ++ [Tok.endTag]) := by
          rw [splitElem_flattenForest body
            (Tok.endTag :: (flattenForest cs' ++ [Tok.endTag])) 0]
          rw [splitElem]
          rfl
        rw [unmarshalAux, hsplit]
        have hlen : (flattenForest cs' ++ [Tok.endTag]).length ≤ g := by
          simp only [List.length_cons, List.length_append] at hf ⊢
          omega
        rw [topLevelItems]
        simp only [List.append_nil]
        cases hd : dispatchTag n (flattenForest body) with
        | some item => simp [hd, ih g hlen, Except.map]
        | none => simp [hd, ih g hlen, Except.map]

/-- `unmarshalSpineItems` on the flattened children of a spine element. -/
theorem unmarshal_flatten (cs : List XNode) :
    unmarshalSpineItems (flattenForest cs ++ [Tok.endTag]) =
      .ok (topLevelItems cs) :=
  unmarshalAux_flatten cs _ (le_refl _)

theorem spine_decode_order :
    (∀ body, dispatchTag ("asset-clip") body = some (.clip body) ∧
      dispatchTag ("clip") body = some (.clip body) ∧
      dispatchTag ("video") body = some (.video body) ∧
      dispatchTag ("audio") body = some (.audio body) ∧
      dispatchTag ("gap") body = some (.gap body) ∧
      dispatchTag ("title") body = some (.title body) ∧
      dispatchTag ("transition") body = some (.transition body) ∧
      dispatchTag ("ref-clip") body = some (.refClip body) ∧
      dispatchTag ("unknown-future-tag") body = none) ∧
    (∀ cs, unmarshalSpineItems (flattenForest cs ++ [Tok.endTag]) =
      .ok (topLevelItems cs)) ∧
    unmarshalSpineItems
        (flattenForest
          [.elem ("video") [],
           .elem ("unknown-future-tag") [.elem ("nested") [.text], .text],
           .elem ("video") []] ++ [Tok.endTag]) =
      .ok [.video [], .video []] := by
  refine ⟨?_, unmarshal_flatten, ?_⟩
  · intro body
    refine ⟨?_, ?_, ?_, ?_, ?_, ?_, ?_, ?_, ?_⟩ <;> simp [dispatchTag]
  · rw [unmarshal_flatten]
    rfl


/-! ## Claim theorems: encoder positional audio pairing -/

/-- C2 (code evaluation at the failing input): encoding a timeline with one
video clip "V" and one positionally matching audio clip "A" emits only the
video element — the audio clip is neither folded into an audio sub-field
nor emitted as a spine entry.  The fold guard requires the freshly
converted item to be a document `Clip` (asset-clip), but `convertItem`
only ever produces `video`/`audio`/`gap`/`ref-clip` elements, so the guard
never fires: the second conjunct shows the converted video item is a
`video` element, which has no audio sub-field at all. -/
theorem audio_fold_never_fires :
    convertTracksToSequence
        (some [⟨"Video 1", .video, [.clip ⟨"V", some ⟨⟨0, 24⟩, ⟨1200, 24⟩⟩, []⟩]⟩,
               ⟨"Audio 1", .audio, [.clip ⟨"A", some ⟨⟨0, 24⟩, ⟨1200, 24⟩⟩, []⟩]⟩]) =
      .ok { format := "r1", duration := "",
            spine := some ⟨[.video { name := "V", duration := "1200/24s",
                                     start := "0/24s", markers := [] }]⟩ } ∧
    convertItem (.clip ⟨"V", some ⟨⟨0, 24⟩, ⟨1200, 24⟩⟩, []⟩) true =
      .ok (.video { name := "V", duration := "1200/24s", start := "0/24s",
                    markers := [] }) := by
  constructor
  · decide
  · decide


end Fcpx
